import Mathlib

/-!
# Verification of the zippy online weight-maintenance engine

Shallow embedding of `src/zippy/pipeline/model/update_dataset.py` and
`src/zippy/pipeline/data/parse_email.py` (repository `skshetry/zippy`),
together with proofs settling the frozen claims about the spec.

Modelling conventions:
* pandas DataFrames become Lean lists of row structures; the CSV files on disk
  become a `Store` mapping a user name (directory name) to their six tables.
* `DataFrame.append(row, ignore_index=True)` returns a fresh frame, leaving the
  caller's frame untouched; in-place `.at`/`.loc` assignment mutates the shared
  frame.  Every update function below returns the table it writes to disk, and
  `update_thread_weights` additionally returns the caller's in-memory view of
  the thread table, because `online_training` later passes that alias to the
  term projection.
* float64 weights are modelled as real numbers; the thread and thread-term
  weight columns, which can receive the non-finite results of `freq / 0.0` and
  `log10` of a negative number, use `PyFloat` (a real, `+inf`, or `NaN`).
* timestamps (`pd.to_datetime` values) are modelled as real-valued epoch
  seconds; subtracting two of them yields `total_seconds` directly.
* the thread `freq` column is stored as float in the CSV but only ever holds
  `1.0` and values obtained from it by `+ 1.0`, so it is modelled as `ℕ`.
-/

namespace Zippy

/-- A numpy float64 value as it flows through the thread tables: either a
finite real, positive infinity (from `positive / 0.0`), or NaN. -/
inductive PyFloat where
  | finite (x : ℝ)
  | inf
  | nan
  deriving Inhabited

namespace PyFloat

/-- IEEE addition restricted to the values that occur here (there is no
negative infinity source in this code path): NaN absorbs, then infinity. -/
def add : PyFloat → PyFloat → PyFloat
  | nan, _ => nan
  | _, nan => nan
  | inf, _ => inf
  | finite _, inf => inf
  | finite x, finite y => finite (x + y)

/-- Division of a float by a (positive) count, as in a mean. -/
noncomputable def divNat : PyFloat → ℕ → PyFloat
  | nan, _ => nan
  | inf, _ => inf
  | finite x, n => finite (x / n)

/-- `np.isnan`. -/
def isNaN : PyFloat → Bool
  | nan => true
  | _ => false

end PyFloat

/-- `pandas.Series.mean()` with its default `skipna=True`: NaN entries are
dropped from both the sum and the count; the mean of an empty (or all-NaN)
series is NaN. -/
noncomputable def pyMean (l : List PyFloat) : PyFloat :=
  let l' := l.filter (fun x => !x.isNaN)
  if l'.isEmpty then PyFloat.nan
  else (l'.foldl PyFloat.add (PyFloat.finite 0)).divNat l'.length

/-- Python's substring test `pat in s`, on the character lists of the two
strings (`Series.str.contains(term, regex=False)` is this same test). -/
def hasSubstr (pat : List Char) : List Char → Bool
  | [] => pat.isEmpty
  | c :: rest => pat.isPrefixOf (c :: rest) || hasSubstr pat rest

/-- Python's `s[0]` on a string: the one-character string holding the first
character (total here; the code only applies it to nonempty strings). -/
def pyStrIdx0 (s : String) : String :=
  String.mk (s.data.take 1)

/-- Python's `str.lower`, ASCII model. -/
def pyLower (s : String) : String :=
  String.mk (s.data.map Char.toLower)

/-! ## Table rows (§3 of the spec, columns as in the CSV files) -/

/-- A row of `from_weight.csv` and of `thread_senders_weight.csv`:
columns `From`, `weight`. -/
structure FromRow where
  From : String
  weight : ℝ

/-- A row of `thread_weights.csv`: columns `thread`, `weight`, `time_span`,
`freq`, `min_time`. -/
structure ThreadRow where
  thread : String
  weight : PyFloat
  time_span : ℝ
  freq : ℕ
  min_time : ℝ
  deriving Inhabited

/-- A row of `thread_term_weights.csv`: columns `term`, `weight`. -/
structure TermRow where
  term : String
  weight : PyFloat

/-- A row of `msg_terms_weight.csv`: columns `term`, `weight`, `freq`. -/
structure MsgTermRow where
  term : String
  weight : ℝ
  freq : ℝ
  deriving Inhabited

/-- A row of `rank_df.csv`: columns `date`, `from`, `subject`, `rank`,
`priority`, `intent` (`from` is a Lean keyword, hence `from_`). -/
structure RankRow where
  date : ℝ
  from_ : String
  subject : String
  rank : ℝ
  priority : String
  intent : String

/-- The six per-user tables loaded by `load_weights`. -/
structure Tables where
  from_wt : List FromRow
  thread_sender_wt : List FromRow
  thread_wt : List ThreadRow
  thread_term_wt : List TermRow
  msg_term_wt : List MsgTermRow
  rank_df : List RankRow

/-- The on-disk model directory: each user name (including the distinguished
user `"global"`) maps to their six CSV tables. -/
def Store : Type := String → Tables

/-- Overwrite one user's tables (a `to_csv` write into that user's
directory). -/
def Store.updAt (s : Store) (u : String) (f : Tables → Tables) : Store :=
  fun v => if v = u then f (s v) else s v

/-! ## The normalized email record produced by `from_message`

The parser maps every header to a singleton list of its lower-cased value and
then replaces `msg["From"]` by the bare matched address string, so `From` is a
`String` while the other headers stay single-element lists.  `Date` carries the
`pd.to_datetime` value of the date header as epoch seconds. -/

structure ParsedEmail where
  From : String
  To : List String
  Subject : List String
  Date : List ℝ
  content : String

/-- `email["From"][0]` — indexing the bare address string, i.e. its first
character, used as the key by the sender tables and the rank ledger. -/
def fromKey (e : ParsedEmail) : String :=
  pyStrIdx0 e.From

/-! ## update_from_weights / update_thread_senders_weights
(`update_dataset.py` lines 35–64)

Both functions receive the whole email and use `email["From"][0]` as the key;
the key is factored out as the argument `k` (the call sites pass `fromKey`).
The existing-sender branch assigns `np.log(np.exp(current_weight) + 1)`
elementwise over the matching rows; the new-sender branch appends
`{"From": k, "weight": np.log(2)}`. -/

noncomputable def update_from_weights (k : String) (from_weight : List FromRow) :
    List FromRow :=
  if k ∈ from_weight.map FromRow.From then
    from_weight.map fun r =>
      if r.From = k then { r with weight := Real.log (Real.exp r.weight + 1) } else r
  else
    from_weight ++ [{ From := k, weight := Real.log 2 }]

/-- Identical rule on the thread-sender table (`update_dataset.py` 49–64). -/
noncomputable def update_thread_senders_weights (k : String)
    (thread_senders_weights : List FromRow) : List FromRow :=
  if k ∈ thread_senders_weights.map FromRow.From then
    thread_senders_weights.map fun r =>
      if r.From = k then { r with weight := Real.log (Real.exp r.weight + 1) } else r
  else
    thread_senders_weights ++ [{ From := k, weight := Real.log 2 }]

/-! ## update_thread_weights (`update_dataset.py` lines 67–99) -/

/-- The velocity weight `10 + np.log10(current_freq / new_timespan)` under
numpy float semantics.  Only invoked with `freq ≥ 2` (guarded by the caller's
`current_freq < 2.0` test), so the numerator is positive: a zero timespan gives
`positive / 0.0 = +inf` and `log10(+inf) = +inf`; a negative timespan gives a
negative quotient and `log10(negative) = NaN`. -/
noncomputable def velocityWeight (freq : ℕ) (ts : ℝ) : PyFloat :=
  if ts = 0 then PyFloat.inf
  else if ts < 0 then PyFloat.nan
  else PyFloat.finite (10 + Real.logb 10 (freq / ts))

/-- `update_thread_weights(email, thread_weights)` with the key
`email["Subject"][0]` and send time `pd.to_datetime(email["Date"])[0]`
factored out.  Returns `(saved, inMemory)`: the table written to
`thread_weights.csv`, and the frame the caller's `thread_activity_wt` variable
still refers to afterwards — the same mutated frame in the existing-thread
branch, but the original frame in the new-thread branch, where
`thread_weights.append` rebinds only the local name.

The existing-thread branch tests `current_freq < 2.0` on the matched rows
(a single row, since thread keys are unique — §3 invariant) and computes
`new_timespan` from the first matched row's `min_time` (the `[0]` in the
source); `freq` is incremented elementwise. -/
noncomputable def update_thread_weights (subj : String) (date : ℝ)
    (thread_weights : List ThreadRow) : List ThreadRow × List ThreadRow :=
  if subj ∈ thread_weights.map ThreadRow.thread then
    let matched := thread_weights.filter (fun r => r.thread = subj)
    let current_freq := matched.headI.freq
    if current_freq < 2 then
      let tw := thread_weights.map fun r =>
        if r.thread = subj then { r with freq := r.freq + 1 } else r
      (tw, tw)
    else
      let new_timespan := date - matched.headI.min_time
      let tw := thread_weights.map fun r =>
        if r.thread = subj then
          { r with
            time_span := new_timespan
            weight := velocityWeight r.freq new_timespan
            freq := r.freq + 1 }
        else r
      (tw, tw)
  else
    (thread_weights ++
      [{ thread := subj, weight := PyFloat.finite 1, time_span := 0,
         freq := 1, min_time := date }],
     thread_weights)

/-! ## update_thread_terms_weights (`update_dataset.py` lines 102–125) -/

/-- `isinstance(updated_weight, np.float)`: `np.float` is the builtin
`float`, and `pandas.Series.mean()` always returns a numpy floating scalar
(a `float` subclass) — including `nan` — so this test is `True` on every
value that reaches it. -/
def isinstance_np_float (_ : PyFloat) : Bool := true

/-- One iteration of the loop body over a term of `thread_tdm.columns`.
Existing term: the mean weight over the thread rows whose subject contains the
term is computed, but the `isinstance` test above then replaces it by `1.0`
before it is stored.  New term: the same mean, with `np.isnan` guarding the
`1.0` fallback, is appended as a new row. -/
noncomputable def threadTermStep (thread_weights : List ThreadRow)
    (thread_term_weights : List TermRow) (term : String) : List TermRow :=
  if term ∈ thread_term_weights.map TermRow.term then
    let updated_weight :=
      pyMean ((thread_weights.filter
        (fun r => hasSubstr term.data r.thread.data)).map ThreadRow.weight)
    let updated_weight :=
      if isinstance_np_float updated_weight then PyFloat.finite 1 else updated_weight
    thread_term_weights.map fun r =>
      if r.term = term then { r with weight := updated_weight } else r
  else
    let weight :=
      pyMean ((thread_weights.filter
        (fun r => hasSubstr term.data r.thread.data)).map ThreadRow.weight)
    let weight := if weight.isNaN then PyFloat.finite 1 else weight
    thread_term_weights ++ [{ term := term, weight := weight }]

/-- The loop over `thread_tdm.columns` (the vocabulary extracted from the
subject); rebinding inside the loop keeps the running frame, which is saved at
the end. -/
noncomputable def update_thread_terms_weights (thread_term_weights : List TermRow)
    (thread_weights : List ThreadRow) (thread_tdm : List String) : List TermRow :=
  thread_tdm.foldl (threadTermStep thread_weights) thread_term_weights

/-! ## update_msg_terms_weights (`update_dataset.py` lines 128–151)

The term-document matrix always has a single row here (one document), so it is
modelled as the list of `(term, count)` column pairs.  In the existing-term
branch the source reads `values[0]` — the first matched row's weight and freq —
and assigns the results to every matched row. -/

/-- One iteration of the loop body over a column `(term, f)` of `msg_tdm`. -/
noncomputable def msgTermStep (msg_term_weights : List MsgTermRow)
    (tf : String × ℕ) : List MsgTermRow :=
  if tf.1 ∈ msg_term_weights.map MsgTermRow.term then
    let matched := msg_term_weights.filter (fun r => r.term = tf.1)
    let current_weight := matched.headI.weight
    let current_freq := matched.headI.freq
    msg_term_weights.map fun r =>
      if r.term = tf.1 then
        { r with
          weight := Real.log (Real.exp current_weight + tf.2)
          freq := current_freq + tf.2 }
      else r
  else
    msg_term_weights ++
      [{ term := tf.1, weight := Real.log (tf.2 + 1), freq := tf.2 }]

/-- The loop over `msg_tdm.columns`. -/
noncomputable def update_msg_terms_weights (msg_term_weights : List MsgTermRow)
    (msg_tdm : List (String × ℕ)) : List MsgTermRow :=
  msg_tdm.foldl msgTermStep msg_term_weights

/-! ## add_new_email (`update_dataset.py` lines 154–169) -/

/-- The row appended by `add_new_email`: note `"from": email["From"][0]`,
the first character of the bare address. -/
noncomputable def rankRow (e : ParsedEmail) (rank : ℝ) (priority intent : String) :
    RankRow :=
  { date := e.Date.headI
    from_ := fromKey e
    subject := e.Subject.headI
    rank := rank
    priority := priority
    intent := intent }

/-- `add_new_email` appends one row to the frame it was given and returns the
table it writes out; the write always goes to
`MODEL_DIR / email["To"][0] / "rank_df.csv"` — the recipient's directory,
whichever frame was passed in. -/
noncomputable def add_new_email (e : ParsedEmail) (rank_df : List RankRow)
    (rank : ℝ) (priority intent : String) : List RankRow :=
  rank_df ++ [rankRow e rank priority intent]

/-! ## online_training (`update_dataset.py` lines 172–217)

The two `VEC.fit_transform` calls go to the external vectorizer collaborator
(sklearn `CountVectorizer`), which raises `ValueError` when no usable
vocabulary results; the outcomes of the two calls are therefore parameters:
`subjV` is the subject vocabulary (`thread_tdm.columns`), `msgV` the body
term-count columns, `none` standing for the caught `ValueError`. -/

noncomputable def online_training (subjV : Option (List String))
    (msgV : Option (List (String × ℕ))) (e : ParsedEmail) (rank : ℝ)
    (priority intent : String) (s : Store) : Store :=
  -- load_weights(email["To"][0])
  let user := e.To.headI
  let t := s user
  -- update_from_weights(email, from_weight); saved to the user's directory
  let s1 := s.updAt user fun tb =>
    { tb with from_wt := update_from_weights (fromKey e) t.from_wt }
  -- update_thread_senders_weights(email, thread_from_wt)
  let s2 := s1.updAt user fun tb =>
    { tb with thread_sender_wt :=
        update_thread_senders_weights (fromKey e) t.thread_sender_wt }
  -- update_thread_weights(email, thread_activity_wt)
  let thr := update_thread_weights e.Subject.headI e.Date.headI t.thread_wt
  let s3 := s2.updAt user fun tb => { tb with thread_wt := thr.1 }
  -- try: update_thread_terms_weights(email, thread_term_wt, thread_activity_wt, thread_tdm)
  -- (the in-memory thread_activity_wt alias, thr.2, is what gets passed)
  let s4 := match subjV with
    | some thread_tdm =>
        s3.updAt user fun tb =>
          { tb with thread_term_wt :=
              update_thread_terms_weights t.thread_term_wt thr.2 thread_tdm }
    | none => s3
  -- try: update_msg_terms_weights(email, msg_term_weights, msg_tdm)
  let s5 := match msgV with
    | some msg_tdm =>
        s4.updAt user fun tb =>
          { tb with msg_term_wt := update_msg_terms_weights t.msg_term_wt msg_tdm }
    | none => s4
  -- add_new_email(email, rank_df, rank, priority, intent)
  let s6 := s5.updAt user fun tb =>
    { tb with rank_df := add_new_email e t.rank_df rank priority intent }
  -- add_new_email(email=email, rank_df=load_weights()[5], ...): the global
  -- rank ledger is loaded fresh, but add_new_email saves to the recipient's
  -- rank_df.csv path, overwriting the row just written there
  let s7 := s6.updAt user fun tb =>
    { tb with rank_df := add_new_email e (s6 "global").rank_df rank priority intent }
  s7

/-! ## parse_email.py

`from_message` lower-cases every header value into a singleton list, joins the
`text/plain` payloads into `content`, and then replaces `msg["From"]` by
`re.search(r\"[\w_\-\.]+@[\w_\-\.]+\.[\w]+\", msg["From"][0]).group(0)` — the
bare matched address string.  The regex is embedded as a backtracking matcher
specialised to that pattern. -/

/-- The regex class `\w` (ASCII model): letters, digits, underscore. -/
def isWordChar (c : Char) : Bool :=
  c.isAlphanum || c = '_'

/-- The regex class `[\w_\-\.]`. -/
def isAddrChar (c : Char) : Bool :=
  isWordChar c || c = '-' || c = '.'

/-- Greedy `cls+` followed by continuation `k`; returns the total number of
characters consumed.  Longer runs of `cls` are preferred, backtracking one
character at a time when `k` fails — Python's greedy `+`. -/
def plusGreedy (cls : Char → Bool) (k : List Char → Option ℕ) :
    List Char → Option ℕ
  | [] => none
  | c :: rest =>
    if cls c then
      match plusGreedy cls k rest with
      | some n => some (n + 1)
      | none =>
        match k rest with
        | some n => some (n + 1)
        | none => none
    else none

/-- A literal character followed by continuation `k`. -/
def litChar (c : Char) (k : List Char → Option ℕ) : List Char → Option ℕ
  | [] => none
  | d :: rest =>
    if d = c then
      match k rest with
      | some n => some (n + 1)
      | none => none
    else none

/-- The trailing `[\w]+` of the pattern (greedy, always succeeds afterwards,
hence consumes the maximal word run). -/
def matchTldPart : List Char → Option ℕ :=
  plusGreedy isWordChar (fun _ => some 0)

/-- `\.[\w]+`. -/
def matchDotTld : List Char → Option ℕ :=
  litChar '.' matchTldPart

/-- `[\w_\-\.]+\.[\w]+`, the domain part. -/
def matchDomain : List Char → Option ℕ :=
  plusGreedy isAddrChar matchDotTld

/-- The full pattern `[\w_\-\.]+@[\w_\-\.]+\.[\w]+` anchored at the current
position, returning the length of the match. -/
def matchAddr : List Char → Option ℕ :=
  plusGreedy isAddrChar (litChar '@' matchDomain)

/-- `re.search`: try the pattern at each position from the left; at the first
position where it matches, `group(0)` is the matched slice. -/
def searchAddr : List Char → Option (List Char)
  | [] => none
  | c :: rest =>
    match matchAddr (c :: rest) with
    | some n => some ((c :: rest).take n)
    | none => searchAddr rest

/-- `re.search(pattern, s)` with `.group(0)`, on a string; `none` models the
`AttributeError` raised by `.group` when there is no match. -/
def reSearchAddr (s : String) : Option String :=
  (searchAddr s.data).map String.mk

/-- A raw message as handed to `from_message`: its header values and its MIME
parts as `(content_type, payload)` pairs.  The `Date` header is carried as the
epoch-second value that `pd.to_datetime` later assigns to it. -/
structure Message where
  From : String
  To : String
  Subject : String
  Date : ℝ
  parts : List (String × String)

/-- `get_text_from_email`: join the payloads of the `text/plain` parts. -/
def get_text_from_email (m : Message) : String :=
  String.join ((m.parts.filter (fun p => p.1 = "text/plain")).map Prod.snd)

/-- `from_message` (`parse_email.py` lines 16–25).  Every header becomes a
singleton list of its lower-cased value; then `msg["From"]` is replaced by the
bare matched address string.  `none` models the `AttributeError` when the
regex finds no match in the From header. -/
noncomputable def from_message (m : Message) : Option ParsedEmail :=
  (reSearchAddr (pyLower m.From)).map fun a =>
    { From := a
      To := [pyLower m.To]
      Subject := [pyLower m.Subject]
      Date := [m.Date]
      content := get_text_from_email m }

/-! ## Helper lemmas -/

section Helpers

/-- A map that fixes every element of a list is the identity on it. -/
theorem map_eq_self_of {α : Type} (l : List α) (f : α → α)
    (h : ∀ x ∈ l, f x = x) : l.map f = l := by
  conv_rhs => rw [← List.map_id l]
  exact List.map_congr_left h

/-- The two sender-weight update functions have identical bodies. -/
theorem update_thread_senders_eq_update_from :
    update_thread_senders_weights = update_from_weights := rfl

/-- Updating a table that holds the key `k` only in its last row softplusses
that row's weight and leaves the rest untouched. -/
theorem update_from_weights_last (k : String) (w : ℝ) (t : List FromRow)
    (hk : k ∉ t.map FromRow.From) :
    update_from_weights k (t ++ [{ From := k, weight := w }]) =
      t ++ [{ From := k, weight := Real.log (Real.exp w + 1) }] := by
  have hrow : ({ From := k, weight := w } : FromRow) ∈
      t ++ [{ From := k, weight := w }] :=
    List.mem_append_right t (List.mem_singleton_self _)
  have hmem : k ∈ (t ++ [({ From := k, weight := w } : FromRow)]).map
      FromRow.From :=
    List.mem_map_of_mem FromRow.From hrow
  rw [update_from_weights, if_pos hmem, List.map_append]
  congr 1
  · refine map_eq_self_of t _ fun r hr => ?_
    have hne : r.From ≠ k := fun hrk =>
      hk (hrk ▸ List.mem_map_of_mem FromRow.From hr)
    simp [hne]
  · simp

/-- Iterating the sender update `n ≥ 1` times on a table not containing `k`
appends exactly one row for `k`, whose weight after the `n`-th update is
`ln(n+1)`. -/
theorem update_from_weights_iterate (k : String) (t : List FromRow) (n : ℕ)
    (hk : k ∉ t.map FromRow.From) (hn : 1 ≤ n) :
    (update_from_weights k)^[n] t =
      t ++ [{ From := k, weight := Real.log (n + 1) }] := by
  induction n, hn using Nat.le_induction with
  | base =>
      rw [Function.iterate_one, update_from_weights, if_neg hk]
      norm_num
  | succ m hm ih =>
      rw [Function.iterate_succ_apply', ih, update_from_weights_last k _ t hk]
      have hpos : (0 : ℝ) < (m : ℝ) + 1 := by positivity
      rw [Real.exp_log hpos]
      push_cast
      ring_nf

end Helpers

/-! ## The claims -/

/-- C4: for every `n ≥ 1` and every key absent from the sender-weight table,
after `n` successive sender-weight updates for that key, with no other updates
to that row, the stored weight equals `ln(n+1)`; identically for the
thread-sender weight table. -/
theorem sender_weight_after_n_updates (k : String) (t : List FromRow) (n : ℕ)
    (hk : k ∉ t.map FromRow.From) (hn : 1 ≤ n) :
    (update_from_weights k)^[n] t =
        t ++ [{ From := k, weight := Real.log (n + 1) }] ∧
      (update_thread_senders_weights k)^[n] t =
        t ++ [{ From := k, weight := Real.log (n + 1) }] := by
  rw [update_thread_senders_eq_update_from]
  exact ⟨update_from_weights_iterate k t n hk hn,
    update_from_weights_iterate k t n hk hn⟩

/-- Witness for C4 at `k = "a"`, `t = []`, `n = 3`. -/
theorem sender_weight_after_n_updates_witness :
    "a" ∉ ([] : List FromRow).map FromRow.From ∧ 1 ≤ 3 ∧
      ((update_from_weights "a")^[3] [] =
          [{ From := "a", weight := Real.log ((3 : ℕ) + 1) }] ∧
        (update_thread_senders_weights "a")^[3] [] =
          [{ From := "a", weight := Real.log ((3 : ℕ) + 1) }]) :=
  ⟨by simp, by norm_num,
    sender_weight_after_n_updates "a" [] 3 (by simp) (by norm_num)⟩

/-- C8: applying the thread-weight update to a key not present in the table
inserts exactly one new row `{weight: 1.0, time_span: 0.0, frequency: 1,
first_seen: send_time}` at the end, leaving all existing rows unchanged. -/
theorem thread_new_row_inserted (subj : String) (date : ℝ)
    (t : List ThreadRow) (hk : subj ∉ t.map ThreadRow.thread) :
    (update_thread_weights subj date t).1 =
      t ++ [{ thread := subj, weight := PyFloat.finite 1, time_span := 0,
              freq := 1, min_time := date }] := by
  rw [update_thread_weights, if_neg hk]

/-- Witness for C8 at `subj = "hi"`, `date = 7`, `t = []`. -/
theorem thread_new_row_inserted_witness :
    "hi" ∉ ([] : List ThreadRow).map ThreadRow.thread ∧
      (update_thread_weights "hi" 7 []).1 =
        [{ thread := "hi", weight := PyFloat.finite 1, time_span := 0,
           freq := 1, min_time := 7 }] :=
  ⟨by simp, thread_new_row_inserted "hi" 7 [] (by simp)⟩

/-- C5: for a thread whose unique table row `r` has `freq = 1`, a recurrence
leaves `weight` and `time_span` unchanged and sets `freq = 2`; for a thread
whose unique row has `freq = 2`, a recurrence at `min_time + E` with `E > 0`
sets `time_span = E`, `weight = 10 + log10(2 / E)` and `freq = 3`.  Rows of
other threads are untouched in both cases. -/
theorem thread_second_and_third_occurrence (subj : String) (t : List ThreadRow)
    (r : ThreadRow) (hu : t.filter (fun x => x.thread = subj) = [r]) :
    (r.freq = 1 → ∀ date : ℝ,
      (update_thread_weights subj date t).1 =
        t.map fun x => if x.thread = subj then { x with freq := 2 } else x) ∧
    (r.freq = 2 → ∀ E : ℝ, 0 < E →
      (update_thread_weights subj (r.min_time + E) t).1 =
        t.map fun x =>
          if x.thread = subj then
            { x with
              time_span := E
              weight := PyFloat.finite (10 + Real.logb 10 (2 / E))
              freq := 3 }
          else x) := by
  have hrmem : r ∈ t ∧ r.thread = subj := by
    have : r ∈ t.filter (fun x => x.thread = subj) := hu ▸ List.mem_singleton_self r
    simpa using this
  have hmem : subj ∈ t.map ThreadRow.thread :=
    hrmem.2 ▸ List.mem_map_of_mem ThreadRow.thread hrmem.1
  have hhead : (t.filter (fun x => x.thread = subj)).headI = r := by
    rw [hu]; rfl
  have huniq : ∀ x ∈ t, x.thread = subj → x = r := by
    intro x hx hxs
    have : x ∈ t.filter (fun x => x.thread = subj) := by
      simp [List.mem_filter, hx, hxs]
    rw [hu] at this
    simpa using this
  constructor
  · intro hfreq date
    rw [update_thread_weights, if_pos hmem]
    simp only [hhead, hfreq]
    norm_num
    intro x hx
    by_cases hxs : x.thread = subj
    · have hxr : x = r := huniq x hx hxs
      simp [hxs, hxr, hfreq]
    · simp [hxs]
  · intro hfreq E hE
    rw [update_thread_weights, if_pos hmem]
    simp only [hhead, hfreq]
    norm_num
    intro x hx
    by_cases hxs : x.thread = subj
    · have hxr : x = r := huniq x hx hxs
      have hvel : velocityWeight 2 E =
          PyFloat.finite (10 + Real.logb 10 (2 / E)) := by
        rw [velocityWeight, if_neg (ne_of_gt hE), if_neg (not_lt.mpr hE.le)]
        norm_num
      simp [hxs, hxr, hvel, hfreq]
    · simp [hxs]

/-- Witness for C5: a two-row table exercising both conjuncts (`freq = 1`
row for the second occurrence, then `freq = 2` with `E = 4`). -/
theorem thread_second_and_third_occurrence_witness :
    ([{ thread := "hi", weight := PyFloat.finite 1, time_span := 0, freq := 2,
        min_time := 3 }] :
      List ThreadRow).filter (fun x => x.thread = "hi") =
      [{ thread := "hi", weight := PyFloat.finite 1, time_span := 0, freq := 2,
         min_time := 3 }] ∧
    (update_thread_weights "hi" (3 + 4)
        [{ thread := "hi", weight := PyFloat.finite 1, time_span := 0,
           freq := 2, min_time := 3 }]).1 =
      [{ thread := "hi", weight := PyFloat.finite (10 + Real.logb 10 (2 / 4)),
         time_span := 4, freq := 3, min_time := 3 }] := by
  have h := thread_second_and_third_occurrence "hi"
    [{ thread := "hi", weight := PyFloat.finite 1, time_span := 0, freq := 2,
       min_time := 3 }]
    { thread := "hi", weight := PyFloat.finite 1, time_span := 0, freq := 2,
      min_time := 3 } (by simp)
  refine ⟨by simp, ?_⟩
  have h2 := h.2 rfl 4 (by norm_num)
  rw [h2]
  simp

/-- C3 (code behaviour at the failing input): a thread with `freq = 2`
recurring with zero elapsed time gets `+inf` stored as its weight — the
velocity-dependent update is neither clamped nor skipped. -/
theorem thread_zero_elapsed_stores_inf :
    (update_thread_weights "ping" 100
        [{ thread := "ping", weight := PyFloat.finite 1, time_span := 0,
           freq := 2, min_time := 100 }]).1 =
      [{ thread := "ping", weight := PyFloat.inf, time_span := 0, freq := 3,
         min_time := 100 }] := by
  rw [update_thread_weights]
  norm_num [velocityWeight]

/-- C2 (code behaviour at the failing input): the term `"hello"` already has a
weight row, and the only thread record whose subject contains it has weight
`5`, so the mean over containing threads is `5` — yet the projection stores
`1.0`, because `isinstance(updated_weight, np.float)` is true for every mean
and the fallback overwrites the computed mean unconditionally. -/
theorem thread_term_existing_ignores_mean :
    update_thread_terms_weights [{ term := "hello", weight := PyFloat.finite 3 }]
        [{ thread := "hello world", weight := PyFloat.finite 5, time_span := 0,
           freq := 1, min_time := 0 }] ["hello"] =
      [{ term := "hello", weight := PyFloat.finite 1 }] ∧
    pyMean ((([{ thread := "hello world", weight := PyFloat.finite 5,
                 time_span := 0, freq := 1, min_time := 0 }] :
          List ThreadRow).filter
            (fun r => hasSubstr "hello".data r.thread.data)).map
          ThreadRow.weight) =
      PyFloat.finite 5 := by
  constructor
  · rw [update_thread_terms_weights]
    simp only [List.foldl_cons, List.foldl_nil, threadTermStep]
    norm_num [isinstance_np_float]
  · have hsub : hasSubstr "hello".data "hello world".data = true := by decide
    simp only [List.filter_cons, hsub, List.filter_nil, List.map_cons,
      List.map_nil]
    rw [pyMean]
    norm_num [PyFloat.isNaN, PyFloat.add, PyFloat.divNat]

/-! ### Per-term fold lemmas for the two term projections -/

section TermFold

/-- Filtering on a key commutes with a map that does not change the key. -/
theorem filter_key_map {α : Type} (key : α → String) (g : α → α)
    (hkey : ∀ r, key (g r) = key r) (t : String) (l : List α) :
    (l.map g).filter (fun r => key r = t) =
      (l.filter (fun r => key r = t)).map g := by
  induction l with
  | nil => rfl
  | cons r rest ih =>
    by_cases h : key r = t
    · simp only [List.map_cons, List.filter_cons, hkey, h]
      simp [ih]
    · simp only [List.map_cons, List.filter_cons, hkey, h]
      simp [h, ih]

/-- A message-term step for a term other than `t` does not change the rows of
term `t`. -/
theorem msgTermStep_filter_ne (mt : List MsgTermRow) (tf : String × ℕ)
    (t : String) (hne : tf.1 ≠ t) :
    (msgTermStep mt tf).filter (fun r => r.term = t) =
      mt.filter (fun r => r.term = t) := by
  rw [msgTermStep]
  by_cases hmem : tf.1 ∈ mt.map MsgTermRow.term
  · rw [if_pos hmem]
    rw [filter_key_map MsgTermRow.term _ (fun r => by by_cases h : r.term = tf.1 <;> simp [h]) t]
    refine map_eq_self_of _ _ fun r hr => ?_
    have hrt : r.term = t := by simpa using (List.mem_filter.mp hr).2
    have : r.term ≠ tf.1 := fun h => hne (h ▸ hrt.symm ▸ rfl)
    simp [this]
  · rw [if_neg hmem, List.filter_append]
    have : ({ term := tf.1, weight := Real.log (tf.2 + 1),
              freq := (tf.2 : ℝ) } : MsgTermRow).term ≠ t := hne
    simp [this]

/-- Folding message-term steps over terms all different from `t` does not
change the rows of term `t`. -/
theorem foldl_msgTermStep_filter_ne (l : List (String × ℕ)) (t : String)
    (h : ∀ p ∈ l, p.1 ≠ t) (mt : List MsgTermRow) :
    (l.foldl msgTermStep mt).filter (fun r => r.term = t) =
      mt.filter (fun r => r.term = t) := by
  induction l generalizing mt with
  | nil => rfl
  | cons a l ih =>
    rw [List.foldl_cons, ih (fun p hp => h p (List.mem_cons_of_mem a hp)),
      msgTermStep_filter_ne mt a t (h a (List.mem_cons_self a l))]

/-- A thread-term step for a term other than `t` does not change the rows of
term `t`. -/
theorem threadTermStep_filter_ne (tw : List ThreadRow) (ttw : List TermRow)
    (s t : String) (hne : s ≠ t) :
    (threadTermStep tw ttw s).filter (fun r => r.term = t) =
      ttw.filter (fun r => r.term = t) := by
  rw [threadTermStep]
  by_cases hmem : s ∈ ttw.map TermRow.term
  · rw [if_pos hmem]
    rw [filter_key_map TermRow.term _ (fun r => by by_cases h : r.term = s <;> simp [h]) t]
    refine map_eq_self_of _ _ fun r hr => ?_
    have hrt : r.term = t := by simpa using (List.mem_filter.mp hr).2
    have : r.term ≠ s := fun h => hne (h.symm.trans hrt)
    simp [this]
  · rw [if_neg hmem, List.filter_append]
    simp [hne]

/-- Folding thread-term steps over terms all different from `t` does not
change the rows of term `t`. -/
theorem foldl_threadTermStep_filter_ne (tw : List ThreadRow) (l : List String)
    (t : String) (h : ∀ s ∈ l, s ≠ t) (ttw : List TermRow) :
    (l.foldl (threadTermStep tw) ttw).filter (fun r => r.term = t) =
      ttw.filter (fun r => r.term = t) := by
  induction l generalizing ttw with
  | nil => rfl
  | cons a l ih =>
    rw [List.foldl_cons, ih (fun s hs => h s (List.mem_cons_of_mem a hs)),
      threadTermStep_filter_ne tw ttw a t (h a (List.mem_cons_self a l))]

/-- Splitting a duplicate-free term list around one term. -/
theorem nodup_split_keys {β : Type} (l₁ l₂ : List (String × β)) (t : String)
    (b : β) (hnd : ((l₁ ++ (t, b) :: l₂).map Prod.fst).Nodup) :
    (∀ p ∈ l₁, p.1 ≠ t) ∧ ∀ p ∈ l₂, p.1 ≠ t := by
  rw [List.map_append, List.map_cons, List.nodup_append] at hnd
  obtain ⟨-, hnd₂, hdisj⟩ := hnd
  constructor
  · intro p hp hpt
    have h' := List.mem_map_of_mem Prod.fst hp
    rw [hpt] at h'
    exact hdisj h' (List.mem_cons_self _ _)
  · intro p hp hpt
    have h' := List.mem_map_of_mem Prod.fst hp
    rw [hpt] at h'
    exact (List.nodup_cons.mp hnd₂).1 h'

end TermFold

/-- C6: in the message-content term projection over a duplicate-free
vocabulary, a term `t` with in-message count `f` whose unique existing row is
`r` ends with `weight = ln(e^r.weight + f)` and `freq = r.freq + f`; a new
term `t` ends with the single inserted row
`{term: t, weight: ln(f + 1), freq: f}`. -/
theorem msg_term_projection (msg_tdm : List (String × ℕ))
    (mt : List MsgTermRow) (t : String) (f : ℕ)
    (hnd : (msg_tdm.map Prod.fst).Nodup) (hmem : (t, f) ∈ msg_tdm) :
    (∀ r, mt.filter (fun x => x.term = t) = [r] →
      (update_msg_terms_weights mt msg_tdm).filter (fun x => x.term = t) =
        [{ r with weight := Real.log (Real.exp r.weight + f),
                  freq := r.freq + f }]) ∧
    (t ∉ mt.map MsgTermRow.term →
      (update_msg_terms_weights mt msg_tdm).filter (fun x => x.term = t) =
        [{ term := t, weight := Real.log (f + 1), freq := (f : ℝ) }]) := by
  obtain ⟨l₁, l₂, rfl⟩ := List.append_of_mem hmem
  obtain ⟨h₁, h₂⟩ := nodup_split_keys l₁ l₂ t f hnd
  rw [update_msg_terms_weights, List.foldl_append, List.foldl_cons]
  constructor
  · intro r hr
    have hA : (l₁.foldl msgTermStep mt).filter (fun x => x.term = t) = [r] :=
      (foldl_msgTermStep_filter_ne l₁ t h₁ mt).trans hr
    have hrA : r ∈ l₁.foldl msgTermStep mt ∧ r.term = t := by
      have : r ∈ (l₁.foldl msgTermStep mt).filter (fun x => x.term = t) :=
        hA ▸ List.mem_singleton_self r
      simpa using this
    have hmemA : t ∈ (l₁.foldl msgTermStep mt).map MsgTermRow.term :=
      hrA.2 ▸ List.mem_map_of_mem MsgTermRow.term hrA.1
    rw [foldl_msgTermStep_filter_ne l₂ t h₂]
    rw [msgTermStep, if_pos hmemA]
    simp only [hA]
    rw [filter_key_map MsgTermRow.term _ (fun x => by by_cases h : x.term = (t, f).1 <;> simp [h]) t]
    rw [hA]
    simp [hrA.2]
  · intro hnew
    have hmtnil : mt.filter (fun x => x.term = t) = [] := by
      rw [List.filter_eq_nil_iff]
      intro x hx
      simp only [decide_eq_true_eq]
      intro hxt
      have h' := List.mem_map_of_mem MsgTermRow.term hx
      rw [hxt] at h'
      exact hnew h'
    have hA : (l₁.foldl msgTermStep mt).filter (fun x => x.term = t) = [] :=
      (foldl_msgTermStep_filter_ne l₁ t h₁ mt).trans hmtnil
    have hmemA : (t, f).1 ∉ (l₁.foldl msgTermStep mt).map MsgTermRow.term := by
      intro hc
      obtain ⟨x, hx, hxt⟩ := List.mem_map.mp hc
      have : x ∈ (l₁.foldl msgTermStep mt).filter (fun y => y.term = t) := by
        simp [List.mem_filter, hx, hxt]
      rw [hA] at this
      simp at this
    rw [foldl_msgTermStep_filter_ne l₂ t h₂]
    rw [msgTermStep, if_neg hmemA, List.filter_append, hA]
    simp

/-- Witness for C6: vocabulary `[("new", 2), ("old", 3)]` against a table
holding only `"old"` (weight `w₀ = 0`, freq `1`). -/
theorem msg_term_projection_witness :
    ((([("new", 2), ("old", 3)] : List (String × ℕ)).map Prod.fst).Nodup ∧
      ("old", 3) ∈ ([("new", 2), ("old", 3)] : List (String × ℕ)) ∧
      ([{ term := "old", weight := 0, freq := 1 }] :
            List MsgTermRow).filter (fun x => x.term = "old") =
        [{ term := "old", weight := 0, freq := 1 }]) ∧
    (update_msg_terms_weights [{ term := "old", weight := 0, freq := 1 }]
          [("new", 2), ("old", 3)]).filter (fun x => x.term = "old") =
      [{ term := "old", weight := Real.log (Real.exp 0 + 3),
         freq := 1 + (3 : ℕ) }] := by
  refine ⟨⟨by decide, by decide, by simp⟩, ?_⟩
  exact (msg_term_projection [("new", 2), ("old", 3)]
    [{ term := "old", weight := 0, freq := 1 }] "old" 3 (by decide)
    (by decide)).1 { term := "old", weight := 0, freq := 1 } (by simp)

/-! ### Length bounds for the address matcher (C9) -/

section MatcherBounds

/-- A greedy-plus match consumes at least one more character than its
continuation's minimum, and never more than the input. -/
theorem plusGreedy_bounds (cls : Char → Bool) (k : List Char → Option ℕ)
    (m : ℕ) (hk : ∀ l j, k l = some j → m ≤ j ∧ j ≤ l.length) :
    ∀ l n, plusGreedy cls k l = some n → m + 1 ≤ n ∧ n ≤ l.length := by
  intro l
  induction l with
  | nil => intro n h; simp [plusGreedy] at h
  | cons c rest ih =>
    intro n h
    rw [plusGreedy] at h
    by_cases hc : cls c
    · rw [if_pos hc] at h
      cases hrec : plusGreedy cls k rest with
      | some n' =>
        rw [hrec] at h
        obtain ⟨h1, h2⟩ := ih n' hrec
        injection h with h
        subst h
        exact ⟨by omega, by simp; omega⟩
      | none =>
        rw [hrec] at h
        cases hkres : k rest with
        | some j =>
          rw [hkres] at h
          obtain ⟨h1, h2⟩ := hk rest j hkres
          injection h with h
          subst h
          exact ⟨by omega, by simp; omega⟩
        | none => rw [hkres] at h; exact absurd h (by simp)
    · rw [if_neg hc] at h; exact absurd h (by simp)

/-- A literal-character match consumes one more character than its
continuation's minimum, and never more than the input. -/
theorem litChar_bounds (c : Char) (k : List Char → Option ℕ) (m : ℕ)
    (hk : ∀ l j, k l = some j → m ≤ j ∧ j ≤ l.length) :
    ∀ l n, litChar c k l = some n → m + 1 ≤ n ∧ n ≤ l.length := by
  intro l n h
  cases l with
  | nil => simp [litChar] at h
  | cons d rest =>
    rw [litChar] at h
    by_cases hd : d = c
    · rw [if_pos hd] at h
      cases hkres : k rest with
      | some j =>
        rw [hkres] at h
        obtain ⟨h1, h2⟩ := hk rest j hkres
        injection h with h
        subst h
        exact ⟨by omega, by simp; omega⟩
      | none => rw [hkres] at h; exact absurd h (by simp)
    · rw [if_neg hd] at h; exact absurd h (by simp)

/-- The whole pattern `[\w_\-\.]+@[\w_\-\.]+\.[\w]+` matches at least five
characters and at most the whole input. -/
theorem matchAddr_bounds :
    ∀ l n, matchAddr l = some n → 5 ≤ n ∧ n ≤ l.length := by
  have h0 : ∀ l j, (fun _ : List Char => some 0) l = some j →
      0 ≤ j ∧ j ≤ l.length := by
    intro l j h
    injection h with h
    omega
  have h1 := plusGreedy_bounds isWordChar _ 0 h0
  have h2 := litChar_bounds '.' matchTldPart 1 h1
  have h3 := plusGreedy_bounds isAddrChar matchDotTld 2 h2
  have h4 := litChar_bounds '@' matchDomain 3 h3
  have h5 := plusGreedy_bounds isAddrChar _ 4 h4
  intro l n h
  exact (h5 l n h).imp (fun h => h) (fun h => h)

/-- Whatever `re.search` returns for the address pattern is at least five
characters long. -/
theorem searchAddr_length :
    ∀ l res, searchAddr l = some res → 5 ≤ res.length := by
  intro l
  induction l with
  | nil => intro res h; simp [searchAddr] at h
  | cons c rest ih =>
    intro res h
    rw [searchAddr] at h
    cases hm : matchAddr (c :: rest) with
    | some n =>
      rw [hm] at h
      obtain ⟨h5, hlen⟩ := matchAddr_bounds (c :: rest) n hm
      injection h with h
      subst h
      rw [List.length_take]
      omega
    | none => rw [hm] at h; exact ih res h

/-- The first element of a nonempty list is all that `take 1` keeps. -/
theorem take_one_of_ne_nil {α : Type} [Inhabited α] (l : List α)
    (h : l ≠ []) : l.take 1 = [l.headI] := by
  cases l with
  | nil => exact absurd rfl h
  | cons a l => simp

end MatcherBounds

/-- C9: whenever the From header (lower-cased) contains a match of the
address pattern, `from_message` succeeds and maps `"From"` to the bare
matched address string — not a singleton list — so the `email["From"][0]`
read by the sender-weight updates and the ledger append is the one-character
string holding the address's first character, which differs from the whole
address. -/
theorem from_message_From_is_bare_string (m : Message) (a : String)
    (h : reSearchAddr (pyLower m.From) = some a) :
    ∃ e, from_message m = some e ∧ e.From = a ∧
      pyStrIdx0 e.From = String.mk [a.data.headI] ∧ pyStrIdx0 e.From ≠ a := by
  obtain ⟨res, hres, hmk⟩ : ∃ res, searchAddr (pyLower m.From).data = some res ∧
      String.mk res = a := by
    rw [reSearchAddr] at h
    cases hs : searchAddr (pyLower m.From).data with
    | some res => rw [hs] at h; injection h with h; exact ⟨res, rfl, h⟩
    | none => rw [hs] at h; exact absurd h (by simp)
  have hlen : 5 ≤ a.data.length := by
    have := searchAddr_length _ res hres
    rw [← hmk]
    exact this
  have hne : a.data ≠ [] := by
    intro hc
    rw [hc] at hlen
    simp at hlen
  refine ⟨_, by rw [from_message, h]; rfl, rfl, ?_, ?_⟩
  · show String.mk (a.data.take 1) = String.mk [a.data.headI]
    rw [take_one_of_ne_nil a.data hne]
  · show String.mk (a.data.take 1) ≠ a
    intro hc
    have hlens := congrArg (fun s : String => s.data.length) hc
    simp only [List.length_take] at hlens
    omega

/-- Witness for C9 on the header `"Bob <Bob@Ex.io>"`, whose lower-cased form
matches at `"bob@ex.io"`; the first-character read is `"b"`. -/
theorem from_message_From_is_bare_string_witness :
    reSearchAddr (pyLower "Bob <Bob@Ex.io>") = some "bob@ex.io" ∧
      String.mk ["bob@ex.io".data.headI] = "b" ∧
      ∃ e,
        from_message
            { From := "Bob <Bob@Ex.io>", To := "Alice@X.co", Subject := "Hello",
              Date := 5, parts := [("text/plain", "hi")] } = some e ∧
          e.From = "bob@ex.io" ∧
          pyStrIdx0 e.From = String.mk ["bob@ex.io".data.headI] ∧
          pyStrIdx0 e.From ≠ "bob@ex.io" :=
  ⟨by decide, by decide,
    from_message_From_is_bare_string
      { From := "Bob <Bob@Ex.io>", To := "Alice@X.co", Subject := "Hello",
        Date := 5, parts := [("text/plain", "hi")] } "bob@ex.io" (by decide)⟩

/-! ### Evaluating one `online_training` run (recipient distinct from the
global scope) -/

/-- What one `train` call does to the store, componentwise: the recipient's
six tables after the run, and the fact that the global directory is never
written (the second `add_new_email` saves the appended global ledger to the
recipient's `rank_df.csv`, clobbering the first append). -/
theorem online_training_run (subjV : Option (List String))
    (msgV : Option (List (String × ℕ))) (e : ParsedEmail) (rank : ℝ)
    (priority intent : String) (s : Store) (hu : e.To.headI ≠ "global") :
    (online_training subjV msgV e rank priority intent s) "global" =
        s "global" ∧
      (online_training subjV msgV e rank priority intent s) e.To.headI =
        { from_wt := update_from_weights (fromKey e) (s e.To.headI).from_wt
          thread_sender_wt :=
            update_thread_senders_weights (fromKey e)
              (s e.To.headI).thread_sender_wt
          thread_wt :=
            (update_thread_weights e.Subject.headI e.Date.headI
              (s e.To.headI).thread_wt).1
          thread_term_wt :=
            match subjV with
            | some tdm =>
                update_thread_terms_weights (s e.To.headI).thread_term_wt
                  (update_thread_weights e.Subject.headI e.Date.headI
                    (s e.To.headI).thread_wt).2 tdm
            | none => (s e.To.headI).thread_term_wt
          msg_term_wt :=
            match msgV with
            | some tdm =>
                update_msg_terms_weights (s e.To.headI).msg_term_wt tdm
            | none => (s e.To.headI).msg_term_wt
          rank_df := add_new_email e (s "global").rank_df rank priority intent } := by
  have hg : ¬ (("global" : String) = e.To.headI) := fun hc => hu hc.symm
  cases subjV <;> cases msgV <;>
    constructor <;>
      simp [online_training, Store.updAt, hg]

/-! ### Concrete fixtures for closed-run theorems -/

/-- Six empty tables, the bootstrapped state of a fresh user. -/
def emptyTables : Tables :=
  { from_wt := [], thread_sender_wt := [], thread_wt := [],
    thread_term_wt := [], msg_term_wt := [], rank_df := [] }

/-- A pre-existing row of the global rank ledger. -/
noncomputable def gRow : RankRow :=
  { date := 0, from_ := "g", subject := "gs", rank := 0, priority := "gp",
    intent := "gi" }

/-- A pre-existing row of alice's rank ledger. -/
noncomputable def uRow : RankRow :=
  { date := 1, from_ := "u", subject := "us", rank := 1, priority := "up",
    intent := "ui" }

/-- A parsed email addressed to `alice`. -/
noncomputable def eAlice : ParsedEmail :=
  { From := "bob@ex.io", To := ["alice"], Subject := ["hello"], Date := [2],
    content := "body" }

/-- A store where the global ledger holds `gRow`, alice's ledger holds
`uRow`, and every other table is empty. -/
noncomputable def storeC : Store := fun u =>
  if u = "global" then { emptyTables with rank_df := [gRow] }
  else if u = "alice" then { emptyTables with rank_df := [uRow] }
  else emptyTables

/-- C1 (code behaviour at the failing input): processing one email for
`alice` leaves the global rank ledger untouched — the row meant for it is
appended to the loaded global frame but saved to `alice`'s `rank_df.csv`;
`alice`'s persisted ledger ends as the global ledger plus the new row,
not as her own ledger plus the new row. -/
theorem global_ledger_never_written :
    (online_training none none eAlice 3 "pri" "int" storeC) "global" =
        storeC "global" ∧
      ((online_training none none eAlice 3 "pri" "int" storeC) "alice").rank_df =
        [gRow, rankRow eAlice 3 "pri" "int"] ∧
      ((online_training none none eAlice 3 "pri" "int" storeC) "alice").rank_df ≠
        [uRow, rankRow eAlice 3 "pri" "int"] := by
  have hu : eAlice.To.headI ≠ "global" := by decide
  have h := online_training_run none none eAlice 3 "pri" "int" storeC hu
  have hto : eAlice.To.headI = "alice" := rfl
  rw [hto] at h
  refine ⟨h.1, ?_, ?_⟩
  · rw [h.2]
    show add_new_email eAlice (storeC "global").rank_df 3 "pri" "int" = _
    rw [add_new_email]
    show ([gRow] : List RankRow) ++ _ = _
    simp
  · rw [h.2]
    show add_new_email eAlice (storeC "global").rank_df 3 "pri" "int" ≠ _
    rw [add_new_email]
    show ([gRow] : List RankRow) ++ _ ≠ _
    intro hc
    simp only [List.cons_append, List.nil_append, List.cons.injEq] at hc
    have : gRow.from_ = uRow.from_ := congrArg RankRow.from_ hc.1
    rw [gRow, uRow] at this
    simp at this

/-- C7: when both vocabulary extractions fail (`ValueError` from the
vectorizer, e.g. empty text or only stopwords), the two term projections are
skipped for that email while everything else still happens: the sender,
thread-sender and thread tables receive exactly their updates, the rank
ledger write happens exactly as in a run with any successful extractions, and
the two term tables are left exactly as loaded. -/
theorem empty_vocab_skips_only_term_projection (e : ParsedEmail) (rank : ℝ)
    (priority intent : String) (s : Store) (hu : e.To.headI ≠ "global") :
    ((online_training none none e rank priority intent s) e.To.headI).thread_term_wt =
        (s e.To.headI).thread_term_wt ∧
      ((online_training none none e rank priority intent s) e.To.headI).msg_term_wt =
        (s e.To.headI).msg_term_wt ∧
      ((online_training none none e rank priority intent s) e.To.headI).from_wt =
        update_from_weights (fromKey e) (s e.To.headI).from_wt ∧
      ((online_training none none e rank priority intent s) e.To.headI).thread_sender_wt =
        update_thread_senders_weights (fromKey e) (s e.To.headI).thread_sender_wt ∧
      ((online_training none none e rank priority intent s) e.To.headI).thread_wt =
        (update_thread_weights e.Subject.headI e.Date.headI
          (s e.To.headI).thread_wt).1 ∧
      ((online_training none none e rank priority intent s) e.To.headI).rank_df =
        add_new_email e (s "global").rank_df rank priority intent ∧
      ∀ (sv : Option (List String)) (mv : Option (List (String × ℕ))),
        ((online_training sv mv e rank priority intent s) e.To.headI).from_wt =
            ((online_training none none e rank priority intent s) e.To.headI).from_wt ∧
          ((online_training sv mv e rank priority intent s) e.To.headI).thread_sender_wt =
            ((online_training none none e rank priority intent s) e.To.headI).thread_sender_wt ∧
          ((online_training sv mv e rank priority intent s) e.To.headI).thread_wt =
            ((online_training none none e rank priority intent s) e.To.headI).thread_wt ∧
          ((online_training sv mv e rank priority intent s) e.To.headI).rank_df =
            ((online_training none none e rank priority intent s) e.To.headI).rank_df := by
  have h := online_training_run none none e rank priority intent s hu
  refine ⟨by rw [h.2], by rw [h.2], by rw [h.2], by rw [h.2], by rw [h.2],
    by rw [h.2], ?_⟩
  intro sv mv
  have h' := online_training_run sv mv e rank priority intent s hu
  exact ⟨by rw [h.2, h'.2], by rw [h.2, h'.2], by rw [h.2, h'.2],
    by rw [h.2, h'.2]⟩

/-- Witness for C7 at the concrete email and store of C1. -/
theorem empty_vocab_skips_only_term_projection_witness :
    eAlice.To.headI ≠ "global" ∧
      ((online_training none none eAlice 3 "pri" "int" storeC)
            eAlice.To.headI).thread_term_wt =
        (storeC eAlice.To.headI).thread_term_wt ∧
      ((online_training none none eAlice 3 "pri" "int" storeC)
            eAlice.To.headI).rank_df =
        add_new_email eAlice (storeC "global").rank_df 3 "pri" "int" :=
  ⟨by decide,
    (empty_vocab_skips_only_term_projection eAlice 3 "pri" "int" storeC
      (by decide)).1,
    (empty_vocab_skips_only_term_projection eAlice 3 "pri" "int" storeC
      (by decide)).2.2.2.2.2.1⟩

/-- The in-memory alias of the thread table after a new-thread insert is the
original table: `thread_weights.append` rebinds only the local name inside
`update_thread_weights`. -/
theorem update_thread_weights_snd_of_new (subj : String) (date : ℝ)
    (t : List ThreadRow) (hk : subj ∉ t.map ThreadRow.thread) :
    (update_thread_weights subj date t).2 = t := by
  rw [update_thread_weights, if_neg hk]

/-- Splitting a duplicate-free string list around one element. -/
theorem nodup_split_strings (l₁ l₂ : List String) (t : String)
    (hnd : (l₁ ++ t :: l₂).Nodup) :
    (∀ x ∈ l₁, x ≠ t) ∧ ∀ x ∈ l₂, x ≠ t := by
  rw [List.nodup_append] at hnd
  obtain ⟨-, hnd₂, hdisj⟩ := hnd
  refine ⟨fun x hx hxt => hdisj (hxt ▸ hx) (List.mem_cons_self _ _), ?_⟩
  intro x hx hxt
  exact (List.nodup_cons.mp hnd₂).1 (hxt ▸ hx)

/-- A term of the subject vocabulary that is new to the thread-term table and
contained in no thread subject of the table the projection sees gets the
`1.0` fallback row. -/
theorem thread_term_new_fallback (terms : List String) (ttw : List TermRow)
    (tw : List ThreadRow) (tm : String) (htm : tm ∈ terms)
    (hnd : terms.Nodup) (hnew : tm ∉ ttw.map TermRow.term)
    (hnosub : tw.filter (fun r => hasSubstr tm.data r.thread.data) = []) :
    (update_thread_terms_weights ttw tw terms).filter
        (fun r => r.term = tm) =
      [{ term := tm, weight := PyFloat.finite 1 }] := by
  obtain ⟨l₁, l₂, rfl⟩ := List.append_of_mem htm
  obtain ⟨h₁, h₂⟩ := nodup_split_strings l₁ l₂ tm hnd
  rw [update_thread_terms_weights, List.foldl_append, List.foldl_cons]
  have httwnil : ttw.filter (fun x => x.term = tm) = [] := by
    rw [List.filter_eq_nil_iff]
    intro x hx
    simp only [decide_eq_true_eq]
    intro hxt
    have h' := List.mem_map_of_mem TermRow.term hx
    rw [hxt] at h'
    exact hnew h'
  have hA : (l₁.foldl (threadTermStep tw) ttw).filter (fun x => x.term = tm) =
      [] := (foldl_threadTermStep_filter_ne tw l₁ tm h₁ ttw).trans httwnil
  have hmemA : tm ∉ (l₁.foldl (threadTermStep tw) ttw).map TermRow.term := by
    intro hc
    obtain ⟨x, hx, hxt⟩ := List.mem_map.mp hc
    have : x ∈ (l₁.foldl (threadTermStep tw) ttw).filter
        (fun y => y.term = tm) := by
      simp [List.mem_filter, hx, hxt]
    rw [hA] at this
    simp at this
  rw [foldl_threadTermStep_filter_ne tw l₂ tm h₂]
  rw [threadTermStep, if_neg hmemA, hnosub]
  rw [List.filter_append, hA]
  simp [pyMean, PyFloat.isNaN]

/-- C10: when the processed email starts a new thread, the thread-subject
term projection inside the same `train` call still sees the thread table as
loaded — the new thread row exists only in the saved table, not in the
in-memory frame passed on — so a subject term contained in no previously
recorded thread subject gets the `1.0` fallback weight even though the new
thread's subject contains it. -/
theorem new_thread_projection_sees_stale_table (terms : List String)
    (msgV : Option (List (String × ℕ))) (e : ParsedEmail) (rank : ℝ)
    (priority intent : String) (s : Store) (hu : e.To.headI ≠ "global")
    (hsub : e.Subject.headI ∉ (s e.To.headI).thread_wt.map ThreadRow.thread)
    (tm : String) (htm : tm ∈ terms) (hnd : terms.Nodup)
    (hnew : tm ∉ (s e.To.headI).thread_term_wt.map TermRow.term)
    (hnosub : (s e.To.headI).thread_wt.filter
        (fun r => hasSubstr tm.data r.thread.data) = []) :
    ((online_training (some terms) msgV e rank priority intent s)
          e.To.headI).thread_wt =
      (s e.To.headI).thread_wt ++
        [{ thread := e.Subject.headI, weight := PyFloat.finite 1,
           time_span := 0, freq := 1, min_time := e.Date.headI }] ∧
    ((online_training (some terms) msgV e rank priority intent s)
          e.To.headI).thread_term_wt.filter (fun r => r.term = tm) =
      [{ term := tm, weight := PyFloat.finite 1 }] := by
  have h := online_training_run (some terms) msgV e rank priority intent s hu
  constructor
  · rw [h.2]
    show (update_thread_weights e.Subject.headI e.Date.headI
      (s e.To.headI).thread_wt).1 = _
    exact thread_new_row_inserted e.Subject.headI e.Date.headI
      (s e.To.headI).thread_wt hsub
  · rw [h.2]
    show (update_thread_terms_weights (s e.To.headI).thread_term_wt
        (update_thread_weights e.Subject.headI e.Date.headI
          (s e.To.headI).thread_wt).2 terms).filter (fun r => r.term = tm) = _
    rw [update_thread_weights_snd_of_new e.Subject.headI e.Date.headI
      (s e.To.headI).thread_wt hsub]
    exact thread_term_new_fallback terms (s e.To.headI).thread_term_wt
      (s e.To.headI).thread_wt tm htm hnd hnew hnosub

/-- Witness for C10: alice's empty tables, subject vocabulary `["hello"]`. -/
theorem new_thread_projection_sees_stale_table_witness :
    (eAlice.To.headI ≠ "global" ∧
        eAlice.Subject.headI ∉
          (storeC eAlice.To.headI).thread_wt.map ThreadRow.thread ∧
        "hello" ∈ ["hello"] ∧ (["hello"] : List String).Nodup ∧
        "hello" ∉ (storeC eAlice.To.headI).thread_term_wt.map TermRow.term ∧
        (storeC eAlice.To.headI).thread_wt.filter
            (fun r => hasSubstr "hello".data r.thread.data) = []) ∧
      ((online_training (some ["hello"]) none eAlice 3 "pri" "int" storeC)
            eAlice.To.headI).thread_wt =
        (storeC eAlice.To.headI).thread_wt ++
          [{ thread := eAlice.Subject.headI, weight := PyFloat.finite 1,
             time_span := 0, freq := 1, min_time := eAlice.Date.headI }] ∧
      ((online_training (some ["hello"]) none eAlice 3 "pri" "int" storeC)
            eAlice.To.headI).thread_term_wt.filter
          (fun r => r.term = "hello") =
        [{ term := "hello", weight := PyFloat.finite 1 }] := by
  refine ⟨⟨by decide, by decide, by decide, by decide, by decide, rfl⟩, ?_⟩
  exact new_thread_projection_sees_stale_table ["hello"] none eAlice 3
    "pri" "int" storeC (by decide) (by decide) "hello" (by decide)
    (by decide) (by decide) rfl

end Zippy
